import Mathlib

/-!
Verification development for the APIGitWorkspace repository: a client-side
virtual filesystem (VFS) with Git-like semantics over a remote hosting
provider.  The development embeds, as executable Lean definitions:

* the SHA-1 content hasher (`sha1`, from `src/utils/sha1.ts`),
* the `NodeFsStorage` persistence layer (from `src/virtualfs/persistence.ts`),
* the VFS state machine (pull / push / writeFile / deleteFile /
  renameWorkspace / getChangeSet / listPaths), modelled from the
  specification because `src/virtualfs/virtualfs.ts` is absent from the
  source tree (only its tests are present), and
* the GitLab adapter's retry loop and commit-response handling, modelled
  from the specification because `src/git/gitlabAdapter.ts` is absent.

States are association lists from paths to contents or index entries; all
definitions are computable so that concrete witnesses evaluate.
-/

namespace AGW

/-- Association-list lookup keyed by strings (first match wins). -/
def lk {α : Type} : List (String × α) → String → Option α
  | [], _ => none
  | (k, v) :: rest, p => if k = p then some v else lk rest p

/-- Remove every binding for a key. -/
def eraseKey {α : Type} (p : String) (l : List (String × α)) : List (String × α) :=
  l.filter (fun kv => decide (kv.1 ≠ p))

/-- Set a key to a value, removing any previous binding. -/
def setKey {α : Type} (p : String) (v : α) (l : List (String × α)) : List (String × α) :=
  (p, v) :: eraseKey p l

/-- Rebuild an association list over an explicit domain: inside `dom` the
binding at `p` becomes `f p` (absent if `f p = none`); outside `dom` the old
bindings survive. -/
def patchMap {α : Type} (dom : List String) (f : String → Option α)
    (old : List (String × α)) : List (String × α) :=
  dom.filterMap (fun p => (f p).map (fun v => (p, v)))
    ++ old.filter (fun kv => decide (kv.1 ∉ dom))

theorem lk_nil {α : Type} (p : String) : lk ([] : List (String × α)) p = none := rfl

theorem lk_cons {α : Type} (k p : String) (v : α) (rest : List (String × α)) :
    lk ((k, v) :: rest) p = if k = p then some v else lk rest p := rfl

theorem lk_some_mem_keys {α : Type} {l : List (String × α)} {p : String} {v : α}
    (h : lk l p = some v) : p ∈ l.map Prod.fst := by
  induction l with
  | nil => simp [lk] at h
  | cons kv rest ih =>
    obtain ⟨k, w⟩ := kv
    rw [lk_cons] at h
    by_cases hk : k = p
    · subst hk; simp
    · simp [hk] at h
      simp [ih h]

theorem lk_none_of_not_mem_keys {α : Type} {l : List (String × α)} {p : String}
    (h : p ∉ l.map Prod.fst) : lk l p = none := by
  cases hl : lk l p with
  | none => rfl
  | some v => exact absurd (lk_some_mem_keys hl) h

theorem lk_eraseKey_self {α : Type} (p : String) (l : List (String × α)) :
    lk (eraseKey p l) p = none := by
  induction l with
  | nil => rfl
  | cons kv rest ih =>
    obtain ⟨k, v⟩ := kv
    by_cases hk : k = p
    · subst hk; simpa [eraseKey] using ih
    · simpa [eraseKey, lk_cons, hk] using ih

theorem lk_eraseKey_ne {α : Type} {q p : String} (h : q ≠ p) (l : List (String × α)) :
    lk (eraseKey p l) q = lk l q := by
  induction l with
  | nil => rfl
  | cons kv rest ih =>
    obtain ⟨k, v⟩ := kv
    by_cases hk : k = p
    · subst hk
      have : k ≠ q := fun hkq => h (hkq ▸ rfl)
      simpa [eraseKey, lk_cons, this] using ih
    · by_cases hq : k = q
      · subst hq; simp [eraseKey, lk_cons, hk]
      · simpa [eraseKey, lk_cons, hk, hq] using ih

theorem lk_setKey_self {α : Type} (p : String) (v : α) (l : List (String × α)) :
    lk (setKey p v l) p = some v := by
  simp [setKey, lk_cons]

theorem lk_setKey_ne {α : Type} {q p : String} (h : q ≠ p) (v : α) (l : List (String × α)) :
    lk (setKey p v l) q = lk l q := by
  have hpq : p ≠ q := fun hp => h hp.symm
  simp [setKey, lk_cons, hpq, lk_eraseKey_ne h]

theorem lk_append {α : Type} (l₁ l₂ : List (String × α)) (q : String) :
    lk (l₁ ++ l₂) q = match lk l₁ q with
      | some v => some v
      | none => lk l₂ q := by
  induction l₁ with
  | nil => simp [lk]
  | cons kv rest ih =>
    obtain ⟨k, v⟩ := kv
    by_cases hk : k = q
    · simp [lk_cons, hk]
    · simpa [lk_cons, hk] using ih

theorem lk_filterMapPart {α : Type} (dom : List String) (f : String → Option α) (q : String) :
    lk (dom.filterMap (fun p => (f p).map (fun v => (p, v)))) q
      = if q ∈ dom then f q else none := by
  induction dom with
  | nil => simp [lk]
  | cons p rest ih =>
    by_cases hp : p = q
    · subst hp
      cases hf : f p with
      | none =>
        simp only [List.filterMap_cons, hf, Option.map_none']
        rw [ih]
        by_cases hq : p ∈ rest <;> simp [hq, hf]
      | some v => simp [List.filterMap_cons, hf, lk_cons]
    · cases hf : f p with
      | none =>
        simp only [List.filterMap_cons, hf, Option.map_none']
        rw [ih]
        by_cases hq : q ∈ rest <;> simp [hq, hp, Ne.symm hp]
      | some v =>
        simp only [List.filterMap_cons, hf, Option.map_some']
        rw [lk_cons, if_neg hp, ih]
        by_cases hq : q ∈ rest <;> simp [hq, hp, Ne.symm hp]

theorem lk_filterOut {α : Type} (dom : List String) (old : List (String × α)) (q : String) :
    lk (old.filter (fun kv => decide (kv.1 ∉ dom))) q
      = if q ∈ dom then none else lk old q := by
  induction old with
  | nil => simp [lk]
  | cons kv rest ih =>
    obtain ⟨k, v⟩ := kv
    by_cases hkdom : k ∈ dom
    · rw [List.filter_cons, if_neg (by simp [hkdom]), ih]
      by_cases hk : k = q
      · subst hk; simp [hkdom, lk_cons]
      · rw [lk_cons, if_neg hk]
    · rw [List.filter_cons, if_pos (by simp [hkdom])]
      by_cases hk : k = q
      · subst hk
        rw [lk_cons, if_pos rfl, lk_cons, if_pos rfl, if_neg hkdom]
      · rw [lk_cons, if_neg hk, ih, lk_cons, if_neg hk]

theorem lk_patchMap {α : Type} (dom : List String) (f : String → Option α)
    (old : List (String × α)) (q : String) :
    lk (patchMap dom f old) q = if q ∈ dom then f q else lk old q := by
  rw [patchMap, lk_append, lk_filterMapPart, lk_filterOut]
  by_cases hq : q ∈ dom
  · simp only [hq, if_pos]
    cases f q <;> simp
  · simp [hq]

/-! ### SHA-1 content hasher, embedded from `src/utils/sha1.ts` -/

/-- One lowercase hexadecimal digit, as produced by JavaScript's
`v.toString(16)` for `v < 16`. -/
def hexDigit (n : Nat) : Char :=
  if n < 10 then Char.ofNat (48 + n) else Char.ofNat (87 + n)

/-- `toHexStr` of `src/utils/sha1.ts`: the eight hex digits of a 32-bit word,
most significant nibble first (the JS loop runs `i = 7` down to `0` taking
`(num >>> (i*4)) & 0xf`). -/
def toHexStr (num : Nat) : String :=
  String.mk ((List.range 8).map (fun k => hexDigit ((num >>> ((7 - k) * 4)) % 16)))

/-- UTF-8 encoding of one character (the JS source obtains the same byte
sequence via `unescape(encodeURIComponent(message))`). -/
def utf8EncodeChar (c : Char) : List Nat :=
  let n := c.toNat
  if n < 128 then [n]
  else if n < 2048 then [192 + n / 64, 128 + n % 64]
  else if n < 65536 then [224 + n / 4096, 128 + (n / 64) % 64, 128 + n % 64]
  else [240 + n / 262144, 128 + (n / 4096) % 64, 128 + (n / 64) % 64, 128 + n % 64]

/-- UTF-8 bytes of a string. -/
def utf8Bytes (s : String) : List Nat :=
  (s.data.map utf8EncodeChar).flatten

/-- Pack four consecutive bytes into one big-endian 32-bit word, as the JS
`words[i >> 2] |= byte << (24 - (i % 4) * 8)` loop does. -/
def group4 : List Nat → List Nat
  | b0 :: b1 :: b2 :: b3 :: rest => (b0 * 16777216 + b1 * 65536 + b2 * 256 + b3) :: group4 rest
  | _ => []

/-- The padded word array of `src/utils/sha1.ts`: message bytes, a `0x80`
byte, zero fill, and the bit length `msgLen * 8` stored (mod 2^32, via the
`| 0` coercion) in the final word of a
`(((msgLen + 8) >> 6) + 1) * 16`-word array. -/
def sha1Words (bytes : List Nat) : List Nat :=
  let ml := bytes.length
  let total := ((ml + 8) / 64 + 1) * 16
  group4 (bytes ++ 128 :: List.replicate (total * 4 - 4 - (ml + 1)) 0) ++ [(ml * 8) % 4294967296]

/-- 32-bit left rotation. -/
def rotl (k x : Nat) : Nat :=
  ((x <<< k) ||| (x >>> (32 - k))) % 4294967296

/-- Message schedule: extend a 16-word block to 80 words
(`w[t] = rotl1 (w[t-3] ^ w[t-8] ^ w[t-14] ^ w[t-16])`). -/
def sha1Schedule (block : List Nat) : List Nat :=
  (List.range 64).foldl
    (fun w t =>
      w ++ [rotl 1 ((w.getD (t + 13) 0) ^^^ (w.getD (t + 8) 0) ^^^ (w.getD (t + 2) 0) ^^^ (w.getD t 0))])
    block

/-- The 80-round SHA-1 compression of one block, from the JS inner loop.
`~b` on a 32-bit value is `b ^^^ 0xffffffff`. -/
def sha1Block (h : Nat × Nat × Nat × Nat × Nat) (block : List Nat) : Nat × Nat × Nat × Nat × Nat :=
  let w := sha1Schedule block
  let st := (List.range 80).foldl
    (fun st t =>
      let a := st.1
      let b := st.2.1
      let c := st.2.2.1
      let d := st.2.2.2.1
      let e := st.2.2.2.2
      let f :=
        if t < 20 then (b &&& c) ||| ((b ^^^ 4294967295) &&& d)
        else if t < 40 then b ^^^ c ^^^ d
        else if t < 60 then (b &&& c) ||| (b &&& d) ||| (c &&& d)
        else b ^^^ c ^^^ d
      let k :=
        if t < 20 then 1518500249
        else if t < 40 then 1859775393
        else if t < 60 then 2400959708
        else 3395469782
      let temp := (rotl 5 a + f + e + k + w.getD t 0) % 4294967296
      (temp, a, rotl 30 b, c, d))
    (h.1, h.2.1, h.2.2.1, h.2.2.2.1, h.2.2.2.2)
  ((h.1 + st.1) % 4294967296,
   (h.2.1 + st.2.1) % 4294967296,
   (h.2.2.1 + st.2.2.1) % 4294967296,
   (h.2.2.2.1 + st.2.2.2.1) % 4294967296,
   (h.2.2.2.2 + st.2.2.2.2) % 4294967296)

/-- Split the padded word list into 16-word blocks (the JS outer loop steps
`i` by 16; indices past the end read as 0 through `words[i + t] | 0`, which
`List.getD _ 0` mirrors for a short tail). -/
def chunks16 : List Nat → List (List Nat)
  | [] => []
  | w0 :: w1 :: w2 :: w3 :: w4 :: w5 :: w6 :: w7 :: w8 :: w9 :: w10 :: w11 :: w12 :: w13 :: w14 :: w15 :: rest =>
      [w0, w1, w2, w3, w4, w5, w6, w7, w8, w9, w10, w11, w12, w13, w14, w15] :: chunks16 rest
  | l => [l]

/-- `sha1` of `src/utils/sha1.ts`: SHA-1 of the UTF-8 encoding of the input
string, rendered as 40 lowercase hex digits `toHexStr h0 ++ … ++ toHexStr h4`. -/
def sha1 (message : String) : String :=
  let blocks := chunks16 (sha1Words (utf8Bytes message))
  let h := blocks.foldl sha1Block (1732584193, 4023233417, 2562383102, 271733878, 3285377520)
  toHexStr h.1 ++ toHexStr h.2.1 ++ toHexStr h.2.2.1 ++ toHexStr h.2.2.2.1 ++ toHexStr h.2.2.2.2

theorem toHexStr_length (num : Nat) : (toHexStr num).length = 8 := by
  simp [toHexStr, String.length]

theorem hexDigit_mem_hexChars (n : Nat) : hexDigit (n % 16) ∈ ("0123456789abcdef").data := by
  have h : n % 16 < 16 := Nat.mod_lt _ (by omega)
  set m := n % 16 with hm
  clear_value m
  interval_cases m <;> decide

theorem toHexStr_chars (num : Nat) :
    ∀ c ∈ (toHexStr num).data, c ∈ ("0123456789abcdef").data := by
  intro c hc
  simp only [toHexStr] at hc
  obtain ⟨k, _, rfl⟩ := List.mem_map.mp hc
  exact hexDigit_mem_hexChars _

theorem data_append (a b : String) : (a ++ b).data = a.data ++ b.data := rfl

theorem sha1_chars (message : String) :
    ∀ c ∈ (sha1 message).data, c ∈ ("0123456789abcdef").data := by
  intro c hc
  simp only [sha1, data_append, List.mem_append] at hc
  rcases hc with ((((h | h) | h) | h) | h) <;> exact toHexStr_chars _ _ h

theorem sha1_length (message : String) : (sha1 message).length = 40 := by
  simp [sha1, String.length_append, toHexStr_length]

set_option maxRecDepth 100000 in
/-- C9: `sha1` returns a 40-character string of lowercase hexadecimal digits;
it is a function of its input, so equal strings hash equal and unequal
digests imply unequal inputs; and it agrees with the FIPS 180 SHA-1 test
vectors for the empty string and for "abc", evidencing that the digest is
the SHA-1 of the UTF-8 encoding of the input. -/
theorem sha1_spec (x y : String) :
    (sha1 x).length = 40 ∧
    (∀ c ∈ (sha1 x).data, c ∈ ("0123456789abcdef").data) ∧
    (x = y → sha1 x = sha1 y) ∧
    (sha1 x ≠ sha1 y → x ≠ y) ∧
    sha1 "abc" = "a9993e364706816aba3e25717850c26c9cd0d89d" ∧
    sha1 "" = "da39a3ee5e6b4b0d3255bfef95601890afd80709" :=
  ⟨sha1_length x, sha1_chars x,
   fun h => h ▸ rfl,
   fun h hxy => h (hxy ▸ rfl),
   rfl, rfl⟩

/-- Witness for `sha1_spec` at concrete inputs. -/
theorem sha1_spec_witness :
    sha1 "abc" = sha1 "abc" ∧ (sha1 "abc").length = 40 :=
  ⟨(sha1_spec "abc" "abc").2.2.1 rfl, (sha1_spec "abc" "abc").1⟩

/-! ### VFS data model

Modelled from the spec: `src/virtualfs/virtualfs.ts` and
`src/virtualfs/types.ts` are absent from the source tree (only their tests
are present), so the index entry, index file and VFS state follow §3 of the
specification.  The `updatedAt` timestamp of an entry is omitted: it is a
wall-clock value that no specified behaviour depends on. -/

/-- Modelled from the spec: the closed state enum of an index entry
(§3, "state — one of base, added, modified, deleted, conflict"). -/
inductive FileState
  | base
  | added
  | modified
  | deleted
  | conflict
deriving DecidableEq, Repr

/-- Modelled from the spec: a per-path index entry `E` (§3). -/
structure IndexEntry where
  path : String
  state : FileState
  baseSha : Option String
  workspaceSha : Option String
  remoteSha : Option String
deriving DecidableEq, Repr

/-- Modelled from the spec: the index file `I` (§3),
`{head, lastCommitKey?, entries}`. -/
structure IndexFile where
  head : String
  lastCommitKey : Option String
  entries : List (String × IndexEntry)
deriving DecidableEq, Repr

/-- Modelled from the spec: the whole state a VFS instance owns — the index
(`head` and per-path `entries`) plus the three content segments
`workspace` / `base` / `conflict` of §3.  Each segment is a finite map from
path to content, as an association list. -/
structure VState where
  head : String
  entries : List (String × IndexEntry)
  ws : List (String × String)
  baseSeg : List (String × String)
  confSeg : List (String × String)
deriving DecidableEq, Repr

/-- The empty VFS state (`init` with no stored index resets to
`{head: '', entries: {}}`). -/
def vfsInit : VState :=
  { head := "", entries := [], ws := [], baseSeg := [], confSeg := [] }

/-! ### VFS operations

All operations are parameterised by the content hash `H` (the repository
uses `sha1`; the state machine consults it only through equality tests). -/

/-- Modelled from the spec: `readFile` (§4.4.9) — workspace if present, else
base, else null. -/
def readFile (s : VState) (p : String) : Option String :=
  match lk s.ws p with
  | some c => some c
  | none => lk s.baseSeg p

/-- Modelled from the spec: `listPaths` (§3.7, §4.4.9) — exactly the paths
whose entry state is in `{base, added, modified, conflict}` (tombstones
hidden). -/
def listPaths (s : VState) : List String :=
  s.entries.filterMap (fun kv => if kv.2.state = FileState.deleted then none else some kv.1)

/-- Modelled from the spec: `writeFile` (§4.4.2), the per-state transition on
writing `content` at `p`. -/
def writeFile (H : String → String) (p content : String) (s : VState) : VState :=
  let sha := H content
  match lk s.entries p with
  | none =>
    { s with ws := setKey p content s.ws,
             entries := setKey p ⟨p, FileState.added, none, some sha, none⟩ s.entries }
  | some e =>
    match e.state with
    | FileState.base =>
      if e.baseSha = some sha then s
      else
        { s with ws := setKey p content s.ws,
                 entries := setKey p { e with state := FileState.modified, workspaceSha := some sha } s.entries }
    | FileState.added =>
      if e.baseSha = some sha then
        { s with ws := eraseKey p s.ws,
                 entries := setKey p { e with state := FileState.base, workspaceSha := none } s.entries }
      else
        { s with ws := setKey p content s.ws,
                 entries := setKey p { e with workspaceSha := some sha } s.entries }
    | FileState.modified =>
      if e.baseSha = some sha then
        { s with ws := eraseKey p s.ws,
                 entries := setKey p { e with state := FileState.base, workspaceSha := none } s.entries }
      else
        { s with ws := setKey p content s.ws,
                 entries := setKey p { e with workspaceSha := some sha } s.entries }
    | FileState.deleted =>
      { s with ws := setKey p content s.ws,
               entries := setKey p { e with state := FileState.modified, workspaceSha := some sha } s.entries }
    | FileState.conflict =>
      { s with ws := setKey p content s.ws,
               entries := setKey p { e with workspaceSha := some sha } s.entries }

/-- Modelled from the spec: `deleteFile` (§4.4.3) — tombstone
base/modified/conflict entries, drop added entries entirely, no-op on
tombstones and unknown paths. -/
def deleteFile (p : String) (s : VState) : VState :=
  match lk s.entries p with
  | none => s
  | some e =>
    match e.state with
    | FileState.added =>
      { s with ws := eraseKey p s.ws, entries := eraseKey p s.entries }
    | FileState.deleted => s
    | _ =>
      { s with entries := setKey p ⟨p, FileState.deleted, e.baseSha, none, none⟩ s.entries,
               ws := eraseKey p s.ws,
               confSeg := eraseKey p s.confSeg }

/-- Modelled from the spec: `renameWorkspace` (§4.4.4) — read the source's
effective content (workspace fallback base), fail with `source not found`
when neither exists, else `writeFile(to, content)` then `deleteFile(from)`. -/
def renameWorkspace (H : String → String) (fromPath toPath : String) (s : VState) :
    Except String VState :=
  match lk s.ws fromPath with
  | some c => Except.ok (deleteFile fromPath (writeFile H toPath c s))
  | none =>
    match lk s.baseSeg fromPath with
    | some c => Except.ok (deleteFile fromPath (writeFile H toPath c s))
    | none => Except.error "source not found"

/-! ### Change set -/

/-- Modelled from the spec: the action kind of a change-set element. -/
inductive ChangeType
  | create
  | update
  | delete
deriving DecidableEq, Repr

/-- Modelled from the spec: one change-set action
`{create|update|delete, path, content?}`. -/
structure Change where
  type : ChangeType
  path : String
  content : Option String
deriving DecidableEq, Repr

/-- Sort rank of an action: deletes are emitted before creates/updates for
the same path (§4.4.7 step 1). -/
def changeRank : ChangeType → Nat
  | ChangeType.delete => 0
  | _ => 1

/-- The change-set ordering: lexicographic by path, deletes first within a
path. -/
def changeLe (a b : Change) : Bool :=
  if a.path = b.path then decide (changeRank a.type ≤ changeRank b.type)
  else decide (a.path < b.path)

/-- Insert into a sorted list of changes. -/
def insertChange (x : Change) : List Change → List Change
  | [] => [x]
  | y :: rest => if changeLe x y then x :: y :: rest else y :: insertChange x rest

/-- Insertion sort by `changeLe`. -/
def sortChanges : List Change → List Change
  | [] => []
  | x :: rest => insertChange x (sortChanges rest)

/-- Modelled from the spec: the action implied by one index entry
(§4.4.7 step 1): added → create, modified → update, deleted → delete;
create/update carry the workspace content. -/
def changeOf (s : VState) (p : String) (e : IndexEntry) : Option Change :=
  match e.state with
  | FileState.added => some ⟨ChangeType.create, p, lk s.ws p⟩
  | FileState.modified => some ⟨ChangeType.update, p, lk s.ws p⟩
  | FileState.deleted => some ⟨ChangeType.delete, p, none⟩
  | _ => none

/-- Modelled from the spec: `getChangeSet` (§4.4.8) — the ordered projection
of `I.entries`. -/
def getChangeSet (s : VState) : List Change :=
  sortChanges (s.entries.filterMap (fun kv => changeOf s kv.1 kv.2))

/-! ### Pull

Modelled from the spec: the pure core of `pull` (§4.4.6) is a per-path
three-way reconciliation over `old ∪ remote ∪ workspace`.  The table of
§4.4.6 is split into one step function per component of the state; an entry
already in `conflict` state is left untouched by the reconciliation pass
(the table has no row for it — conflicts wait for explicit resolution). -/

/-- Modelled from the spec: the new index entry at path `p` after one pull
step, given the old entry and the remote content (the action column of the
§4.4.6 table). -/
def entryStep (H : String → String) (p : String)
    (e : Option IndexEntry) (r : Option String) : Option IndexEntry :=
  match e, r with
  | none, none => none
  | none, some c => some ⟨p, FileState.base, some (H c), none, none⟩
  | some en, r =>
    match en.state, r with
    | FileState.base, some c =>
      if en.baseSha = some (H c) then some en
      else some { en with baseSha := some (H c) }
    | FileState.base, none => none
    | FileState.modified, some c =>
      if en.workspaceSha = some (H c) then some ⟨p, FileState.base, some (H c), none, none⟩
      else some { en with state := FileState.conflict, remoteSha := some (H c) }
    | FileState.modified, none =>
      some { en with state := FileState.conflict, remoteSha := none }
    | FileState.added, some c =>
      if en.workspaceSha = some (H c) then some ⟨p, FileState.base, some (H c), none, none⟩
      else some { en with state := FileState.conflict, remoteSha := some (H c) }
    | FileState.added, none => some en
    | FileState.deleted, some c =>
      some { en with state := FileState.conflict, remoteSha := some (H c) }
    | FileState.deleted, none => none
    | FileState.conflict, _ => some en

/-- Modelled from the spec: the new workspace content at a path after one
pull step — the workspace blob is consumed only when a `modified`/`added`
entry is promoted to `base` (its bytes move to the base segment). -/
def wsStep (H : String → String) (e : Option IndexEntry) (r w : Option String) : Option String :=
  match e, r with
  | some en, some c =>
    match en.state with
    | FileState.modified => if en.workspaceSha = some (H c) then none else w
    | FileState.added => if en.workspaceSha = some (H c) then none else w
    | _ => w
  | _, _ => w

/-- Modelled from the spec: the new base-segment content at a path after one
pull step (add/overwrite with remote bytes, promote workspace bytes, or drop
on remote deletion). -/
def baseStep (H : String → String) (e : Option IndexEntry) (r w b : Option String) :
    Option String :=
  match e, r with
  | none, some c => some c
  | none, none => b
  | some en, some c =>
    match en.state with
    | FileState.base => if en.baseSha = some (H c) then b else some c
    | FileState.modified => if en.workspaceSha = some (H c) then some (w.getD c) else b
    | FileState.added => if en.workspaceSha = some (H c) then some (w.getD c) else b
    | FileState.deleted => b
    | FileState.conflict => b
  | some en, none =>
    match en.state with
    | FileState.base => none
    | FileState.deleted => none
    | _ => b

/-- Modelled from the spec: the new conflict-segment content at a path after
one pull step — remote bytes are persisted exactly when a conflict with
remote content arises. -/
def confStep (H : String → String) (e : Option IndexEntry) (r cf : Option String) :
    Option String :=
  match e, r with
  | some en, some c =>
    match en.state with
    | FileState.modified => if en.workspaceSha = some (H c) then cf else some c
    | FileState.added => if en.workspaceSha = some (H c) then cf else some c
    | FileState.deleted => some c
    | _ => cf
  | _, _ => cf

/-- Modelled from the spec: whether the pull step at a path appends the path
to the returned `conflicts` list. -/
def conflictFlag (H : String → String) (e : Option IndexEntry) (r : Option String) : Bool :=
  match e, r with
  | some en, some c =>
    match en.state with
    | FileState.modified => decide (en.workspaceSha ≠ some (H c))
    | FileState.added => decide (en.workspaceSha ≠ some (H c))
    | FileState.deleted => true
    | _ => false
  | some en, none =>
    match en.state with
    | FileState.modified => true
    | _ => false
  | _, _ => false

/-- The paths a pull visits: `old ∪ remote ∪ workspace` (§4.4.6). -/
def pullDomain (s : VState) (snap : List (String × String)) : List String :=
  (s.entries.map Prod.fst ++ snap.map Prod.fst ++ s.ws.map Prod.fst).dedup

/-- Modelled from the spec: `pull(remoteHead, remoteSnapshot)` (§4.4.6), the
pure core over a precomputed snapshot.  Returns the new state and the
`conflicts` list; after processing, `I.head ← remoteHead`. -/
def pull (H : String → String) (remoteHead : String) (snap : List (String × String))
    (s : VState) : VState × List String :=
  let dom := pullDomain s snap
  ({ head := remoteHead
     entries := patchMap dom (fun p => entryStep H p (lk s.entries p) (lk snap p)) s.entries
     ws := patchMap dom (fun p => wsStep H (lk s.entries p) (lk snap p) (lk s.ws p)) s.ws
     baseSeg := patchMap dom
       (fun p => baseStep H (lk s.entries p) (lk snap p) (lk s.ws p) (lk s.baseSeg p)) s.baseSeg
     confSeg := patchMap dom
       (fun p => confStep H (lk s.entries p) (lk snap p) (lk s.confSeg p)) s.confSeg },
   dom.filter (fun p => conflictFlag H (lk s.entries p) (lk snap p)))

/-! ### Push -/

/-- Modelled from the spec: push input `{message, parentSha, changes?}`
(§4.4.7). -/
structure PushInput where
  message : String
  parentSha : String
  changes : Option (List Change)

/-- Modelled from the spec: the error kinds push can fail with (§7). -/
inductive PushError
  | headMismatch
  | unresolvedConflicts
  | remoteFailed (msg : String)
deriving DecidableEq, Repr

/-- Modelled from the spec: a successful push result
(`{noop, commitSha}`). -/
structure PushSuccess where
  noop : Bool
  commitSha : String
deriving DecidableEq, Repr

/-- Modelled from the spec: the per-entry promotion of push step 4 — each
`added`/`modified` entry becomes `base` with `baseSha ← workspaceSha`, each
`deleted` entry is dropped. -/
def promoteEntryAfterPush (p : String) (e : IndexEntry) : Option IndexEntry :=
  match e.state with
  | FileState.deleted => none
  | FileState.added => some ⟨p, FileState.base, e.workspaceSha, none, none⟩
  | FileState.modified => some ⟨p, FileState.base, e.workspaceSha, none, none⟩
  | _ => some e

/-- Modelled from the spec: the state update after a successful commit
(push step 4): promote entries, move workspace bytes to base, drop base
blobs of confirmed deletions, set `I.head ← commitSha`. -/
def promoteAfterPush (s : VState) (commitSha : String) : VState :=
  let dom := s.entries.map Prod.fst
  { head := commitSha
    entries := patchMap dom (fun p => (lk s.entries p).bind (promoteEntryAfterPush p)) s.entries
    ws := patchMap dom
      (fun p =>
        match lk s.entries p with
        | some e =>
          match e.state with
          | FileState.added => none
          | FileState.modified => none
          | _ => lk s.ws p
        | none => lk s.ws p) s.ws
    baseSeg := patchMap dom
      (fun p =>
        match lk s.entries p with
        | some e =>
          match e.state with
          | FileState.added => lk s.ws p
          | FileState.modified => lk s.ws p
          | FileState.deleted => none
          | _ => lk s.baseSeg p
        | none => lk s.baseSeg p) s.baseSeg
    confSeg := s.confSeg }

/-- Modelled from the spec: `push` (§4.4.7).  The remote commit call is a
parameter `remoteResult` (the adapter either returns a commit sha or
fails); the returned state is the state as of completion or failure, so a
failed precondition returns the input state unchanged.  Preconditions are
checked in order: `parentSha = I.head` (else `headMismatch`), no entry in
`conflict` state (else `unresolvedConflicts`); an empty change set returns
`{noop: true, commitSha: parentSha}` without calling the remote. -/
def push (remoteResult : Except String String) (input : PushInput) (s : VState) :
    VState × Except PushError PushSuccess :=
  if input.parentSha ≠ s.head then (s, Except.error PushError.headMismatch)
  else if s.entries.any (fun kv => decide (kv.2.state = FileState.conflict)) then
    (s, Except.error PushError.unresolvedConflicts)
  else
    let changes := input.changes.getD (getChangeSet s)
    if changes.isEmpty then (s, Except.ok ⟨true, input.parentSha⟩)
    else
      match remoteResult with
      | Except.error m => (s, Except.error (PushError.remoteFailed m))
      | Except.ok commitSha => (promoteAfterPush s commitSha, Except.ok ⟨false, commitSha⟩)

/-! ### Pointwise characterisation of `pull` -/

theorem mem_pullDomain {s : VState} {snap : List (String × String)} {q : String} :
    q ∈ pullDomain s snap ↔
      q ∈ s.entries.map Prod.fst ∨ q ∈ snap.map Prod.fst ∨ q ∈ s.ws.map Prod.fst := by
  simp [pullDomain, List.mem_dedup, or_assoc]

theorem lk_pull_entries (H : String → String) (h' : String) (snap : List (String × String))
    (s : VState) (q : String) :
    lk (pull H h' snap s).1.entries q = entryStep H q (lk s.entries q) (lk snap q) := by
  show lk (patchMap (pullDomain s snap) _ _) q = _
  rw [lk_patchMap]
  by_cases hq : q ∈ pullDomain s snap
  · simp [hq]
  · have he : lk s.entries q = none :=
      lk_none_of_not_mem_keys (fun hmem => hq (mem_pullDomain.mpr (Or.inl hmem)))
    have hr : lk snap q = none :=
      lk_none_of_not_mem_keys (fun hmem => hq (mem_pullDomain.mpr (Or.inr (Or.inl hmem))))
    simp [hq, he, hr, entryStep]

theorem lk_pull_ws (H : String → String) (h' : String) (snap : List (String × String))
    (s : VState) (q : String) :
    lk (pull H h' snap s).1.ws q = wsStep H (lk s.entries q) (lk snap q) (lk s.ws q) := by
  show lk (patchMap (pullDomain s snap) _ _) q = _
  rw [lk_patchMap]
  by_cases hq : q ∈ pullDomain s snap
  · simp [hq]
  · have he : lk s.entries q = none :=
      lk_none_of_not_mem_keys (fun hmem => hq (mem_pullDomain.mpr (Or.inl hmem)))
    simp [hq, he, wsStep]

theorem lk_pull_baseSeg (H : String → String) (h' : String) (snap : List (String × String))
    (s : VState) (q : String) :
    lk (pull H h' snap s).1.baseSeg q
      = baseStep H (lk s.entries q) (lk snap q) (lk s.ws q) (lk s.baseSeg q) := by
  show lk (patchMap (pullDomain s snap) _ _) q = _
  rw [lk_patchMap]
  by_cases hq : q ∈ pullDomain s snap
  · simp [hq]
  · have he : lk s.entries q = none :=
      lk_none_of_not_mem_keys (fun hmem => hq (mem_pullDomain.mpr (Or.inl hmem)))
    have hr : lk snap q = none :=
      lk_none_of_not_mem_keys (fun hmem => hq (mem_pullDomain.mpr (Or.inr (Or.inl hmem))))
    simp [hq, he, hr, baseStep]

theorem lk_pull_confSeg (H : String → String) (h' : String) (snap : List (String × String))
    (s : VState) (q : String) :
    lk (pull H h' snap s).1.confSeg q
      = confStep H (lk s.entries q) (lk snap q) (lk s.confSeg q) := by
  show lk (patchMap (pullDomain s snap) _ _) q = _
  rw [lk_patchMap]
  by_cases hq : q ∈ pullDomain s snap
  · simp [hq]
  · have he : lk s.entries q = none :=
      lk_none_of_not_mem_keys (fun hmem => hq (mem_pullDomain.mpr (Or.inl hmem)))
    simp [hq, he, confStep]

theorem pull_head (H : String → String) (h' : String) (snap : List (String × String))
    (s : VState) : (pull H h' snap s).1.head = h' := rfl

theorem mem_pull_conflicts {H : String → String} {h' : String} {snap : List (String × String)}
    {s : VState} {q : String} :
    q ∈ (pull H h' snap s).2 ↔
      q ∈ pullDomain s snap ∧ conflictFlag H (lk s.entries q) (lk snap q) = true := by
  show q ∈ List.filter _ (pullDomain s snap) ↔ _
  simp [List.mem_filter]

/-! ### One pull pass stabilises every path -/

theorem entryStep_idem (H : String → String) (p : String) (e : Option IndexEntry)
    (r : Option String) :
    entryStep H p (entryStep H p e r) r = entryStep H p e r := by
  cases e with
  | none =>
    cases r with
    | none => rfl
    | some c => simp [entryStep]
  | some en =>
    obtain ⟨pa, st, bs, wsha, rs⟩ := en
    cases r with
    | none => cases st <;> simp [entryStep]
    | some c =>
      cases st with
      | base => by_cases hb : bs = some (H c) <;> simp [entryStep, hb]
      | modified => by_cases hw : wsha = some (H c) <;> simp [entryStep, hw]
      | added => by_cases hw : wsha = some (H c) <;> simp [entryStep, hw]
      | deleted => simp [entryStep]
      | conflict => simp [entryStep]

theorem wsStep_stable (H : String → String) (p : String) (e : Option IndexEntry)
    (r w : Option String) :
    wsStep H (entryStep H p e r) r w = w := by
  cases e with
  | none =>
    cases r with
    | none => rfl
    | some c => simp [entryStep, wsStep]
  | some en =>
    obtain ⟨pa, st, bs, wsha, rs⟩ := en
    cases r with
    | none => cases st <;> simp [entryStep, wsStep]
    | some c =>
      cases st with
      | base => by_cases hb : bs = some (H c) <;> simp [entryStep, wsStep, hb]
      | modified => by_cases hw : wsha = some (H c) <;> simp [entryStep, wsStep, hw]
      | added => by_cases hw : wsha = some (H c) <;> simp [entryStep, wsStep, hw]
      | deleted => simp [entryStep, wsStep]
      | conflict => simp [entryStep, wsStep]

theorem baseStep_stable (H : String → String) (p : String) (e : Option IndexEntry)
    (r w b : Option String) :
    baseStep H (entryStep H p e r) r w b = b := by
  cases e with
  | none =>
    cases r with
    | none => rfl
    | some c => simp [entryStep, baseStep]
  | some en =>
    obtain ⟨pa, st, bs, wsha, rs⟩ := en
    cases r with
    | none => cases st <;> simp [entryStep, baseStep]
    | some c =>
      cases st with
      | base => by_cases hb : bs = some (H c) <;> simp [entryStep, baseStep, hb]
      | modified => by_cases hw : wsha = some (H c) <;> simp [entryStep, baseStep, hw]
      | added => by_cases hw : wsha = some (H c) <;> simp [entryStep, baseStep, hw]
      | deleted => simp [entryStep, baseStep]
      | conflict => simp [entryStep, baseStep]

theorem confStep_stable (H : String → String) (p : String) (e : Option IndexEntry)
    (r cf : Option String) :
    confStep H (entryStep H p e r) r cf = cf := by
  cases e with
  | none =>
    cases r with
    | none => rfl
    | some c => simp [entryStep, confStep]
  | some en =>
    obtain ⟨pa, st, bs, wsha, rs⟩ := en
    cases r with
    | none => cases st <;> simp [entryStep, confStep]
    | some c =>
      cases st with
      | base => by_cases hb : bs = some (H c) <;> simp [entryStep, confStep, hb]
      | modified => by_cases hw : wsha = some (H c) <;> simp [entryStep, confStep, hw]
      | added => by_cases hw : wsha = some (H c) <;> simp [entryStep, confStep, hw]
      | deleted => simp [entryStep, confStep]
      | conflict => simp [entryStep, confStep]

theorem conflictFlag_stable (H : String → String) (p : String) (e : Option IndexEntry)
    (r : Option String) :
    conflictFlag H (entryStep H p e r) r = false := by
  cases e with
  | none =>
    cases r with
    | none => rfl
    | some c => simp [entryStep, conflictFlag]
  | some en =>
    obtain ⟨pa, st, bs, wsha, rs⟩ := en
    cases r with
    | none => cases st <;> simp [entryStep, conflictFlag]
    | some c =>
      cases st with
      | base => by_cases hb : bs = some (H c) <;> simp [entryStep, conflictFlag, hb]
      | modified => by_cases hw : wsha = some (H c) <;> simp [entryStep, conflictFlag, hw]
      | added => by_cases hw : wsha = some (H c) <;> simp [entryStep, conflictFlag, hw]
      | deleted => simp [entryStep, conflictFlag]
      | conflict => simp [entryStep, conflictFlag]

/-! ### Claim theorems: pull -/

/-- C6: pull is idempotent — for every hash, head and snapshot, a second
`pull(H, S)` right after a first leaves the state extensionally unchanged
(index entries, workspace, base and conflict segments, head all equal),
reports no conflicts, and leaves `I.head = H`. -/
theorem pull_idempotent (H : String → String) (h' : String)
    (snap : List (String × String)) (s : VState) :
    (pull H h' snap (pull H h' snap s).1).2 = [] ∧
    (pull H h' snap (pull H h' snap s).1).1.head = h' ∧
    (pull H h' snap s).1.head = h' ∧
    (∀ q, lk (pull H h' snap (pull H h' snap s).1).1.entries q
        = lk (pull H h' snap s).1.entries q) ∧
    (∀ q, lk (pull H h' snap (pull H h' snap s).1).1.ws q
        = lk (pull H h' snap s).1.ws q) ∧
    (∀ q, lk (pull H h' snap (pull H h' snap s).1).1.baseSeg q
        = lk (pull H h' snap s).1.baseSeg q) ∧
    (∀ q, lk (pull H h' snap (pull H h' snap s).1).1.confSeg q
        = lk (pull H h' snap s).1.confSeg q) := by
  refine ⟨?_, rfl, rfl, ?_, ?_, ?_, ?_⟩
  · apply List.filter_eq_nil_iff.mpr
    intro q _
    rw [lk_pull_entries]
    simp [conflictFlag_stable]
  · intro q
    rw [lk_pull_entries, lk_pull_entries, entryStep_idem]
  · intro q
    rw [lk_pull_ws, lk_pull_entries, wsStep_stable]
  · intro q
    rw [lk_pull_baseSeg, lk_pull_entries, baseStep_stable]
  · intro q
    rw [lk_pull_confSeg, lk_pull_entries, confStep_stable]

/-- C2: when the entry at `p` is `modified` with a `workspaceSha` different
from the hash of the remote content at `p`, pull persists the remote bytes
to the conflict segment, moves the entry to state `conflict` with
`remoteSha` the hash of the remote bytes, and reports `p` in the returned
conflicts list. -/
theorem pull_modified_conflict (H : String → String) (h' : String)
    (snap : List (String × String)) (s : VState) (p : String) (e : IndexEntry) (c : String)
    (hent : lk s.entries p = some e) (hst : e.state = FileState.modified)
    (hr : lk snap p = some c) (hws : e.workspaceSha ≠ some (H c)) :
    lk (pull H h' snap s).1.confSeg p = some c ∧
    lk (pull H h' snap s).1.entries p
      = some { e with state := FileState.conflict, remoteSha := some (H c) } ∧
    p ∈ (pull H h' snap s).2 := by
  refine ⟨?_, ?_, ?_⟩
  · rw [lk_pull_confSeg, hent, hr]
    simp [confStep, hst, hws]
  · rw [lk_pull_entries, hent, hr]
    simp [entryStep, hst, hws]
  · refine mem_pull_conflicts.mpr ⟨?_, ?_⟩
    · exact mem_pullDomain.mpr (Or.inl (lk_some_mem_keys hent))
    · rw [hent, hr]
      simp [conflictFlag, hst, hws]

/-- Witness for `pull_modified_conflict`. -/
theorem pull_modified_conflict_witness :
    lk (pull (fun x => x) "h2"
        [("a", "remote")]
        { head := "h1",
          entries := [("a", ⟨"a", FileState.modified, some "v1", some "local", none⟩)],
          ws := [("a", "local")], baseSeg := [("a", "v1")], confSeg := [] }).1.confSeg "a"
      = some "remote" ∧
    lk (pull (fun x => x) "h2"
        [("a", "remote")]
        { head := "h1",
          entries := [("a", ⟨"a", FileState.modified, some "v1", some "local", none⟩)],
          ws := [("a", "local")], baseSeg := [("a", "v1")], confSeg := [] }).1.entries "a"
      = some ⟨"a", FileState.conflict, some "v1", some "local", some "remote"⟩ ∧
    "a" ∈ (pull (fun x => x) "h2"
        [("a", "remote")]
        { head := "h1",
          entries := [("a", ⟨"a", FileState.modified, some "v1", some "local", none⟩)],
          ws := [("a", "local")], baseSeg := [("a", "v1")], confSeg := [] }).2 :=
  pull_modified_conflict (fun x => x) "h2" _ _ "a"
    ⟨"a", FileState.modified, some "v1", some "local", none⟩ "remote"
    (by decide) rfl (by decide) (by decide)

/-- C3: a conflict-free fast-forward — if the workspace holds no local
modification (every entry is in state `base`, with `baseSha` the hash of the
stored base bytes, and the workspace segment is empty) and the hash is
injective, then `pull(H', S')` reports no conflicts, sets `I.head = H'`, and
every path of the snapshot reads back with the remote content. -/
theorem pull_fast_forward (H : String → String) (h' : String)
    (snap : List (String × String)) (s : VState)
    (hinj : Function.Injective H)
    (hws : ∀ q, lk s.ws q = none)
    (hbase : ∀ q e, lk s.entries q = some e →
      e.state = FileState.base ∧ ∃ cb, lk s.baseSeg q = some cb ∧ e.baseSha = some (H cb)) :
    (pull H h' snap s).2 = [] ∧
    (pull H h' snap s).1.head = h' ∧
    (∀ p c, lk snap p = some c → readFile (pull H h' snap s).1 p = some c) := by
  refine ⟨?_, rfl, ?_⟩
  · apply List.filter_eq_nil_iff.mpr
    intro q _
    cases hent : lk s.entries q with
    | none => cases hr : lk snap q <;> simp [conflictFlag]
    | some e =>
      have hst := (hbase q e hent).1
      cases hr : lk snap q <;> simp [conflictFlag, hst]
  · intro p c hr
    have hw : lk (pull H h' snap s).1.ws p = none := by
      rw [lk_pull_ws, hws p]
      cases hent : lk s.entries p with
      | none => simp [wsStep]
      | some e =>
        cases hrr : lk snap p with
        | none => simp [wsStep]
        | some d =>
          cases hst : e.state <;> simp [wsStep, hst]
    rw [readFile, hw]
    rw [lk_pull_baseSeg, hr]
    cases hent : lk s.entries p with
    | none => simp [baseStep]
    | some e =>
      obtain ⟨hst, cb, hcb, hsha⟩ := hbase p e hent
      by_cases hb : e.baseSha = some (H c)
      · have : H cb = H c := by
          have := hsha.symm.trans hb
          simpa using this
        have hcbc : cb = c := hinj this
        rw [hcb]
        simp [baseStep, hst, hb, hcbc]
      · simp [baseStep, hst, hb]

/-- Witness for `pull_fast_forward`. -/
theorem pull_fast_forward_witness :
    (pull (fun x => x) "h2" [("a", "v2")]
      { head := "h1",
        entries := [("a", ⟨"a", FileState.base, some "v1", none, none⟩)],
        ws := [], baseSeg := [("a", "v1")], confSeg := [] }).2 = [] ∧
    (pull (fun x => x) "h2" [("a", "v2")]
      { head := "h1",
        entries := [("a", ⟨"a", FileState.base, some "v1", none, none⟩)],
        ws := [], baseSeg := [("a", "v1")], confSeg := [] }).1.head = "h2" ∧
    readFile (pull (fun x => x) "h2" [("a", "v2")]
      { head := "h1",
        entries := [("a", ⟨"a", FileState.base, some "v1", none, none⟩)],
        ws := [], baseSeg := [("a", "v1")], confSeg := [] }).1 "a" = some "v2" := by
  have h := pull_fast_forward (fun x => x) "h2" [("a", "v2")]
    { head := "h1",
      entries := [("a", ⟨"a", FileState.base, some "v1", none, none⟩)],
      ws := [], baseSeg := [("a", "v1")], confSeg := [] }
    (fun x y hxy => hxy)
    (fun q => rfl)
    (by
      intro q e hq
      by_cases hqa : "a" = q
      · subst hqa
        simp [lk] at hq
        subst hq
        exact ⟨rfl, "v1", rfl, rfl⟩
      · simp [lk, hqa] at hq)
  exact ⟨h.1, h.2.1, h.2.2 "a" "v2" rfl⟩

/-! ### Claim theorems: push -/

/-- C1: `push` with `parentSha ≠ I.head` fails with the head-mismatch error
and mutates nothing — the returned state (index head, entries, workspace and
segments) is exactly the input state, whatever the change set and the
remote's would-be answer. -/
theorem push_head_mismatch (remoteResult : Except String String) (input : PushInput)
    (s : VState) (h : input.parentSha ≠ s.head) :
    push remoteResult input s = (s, Except.error PushError.headMismatch) := by
  simp [push, h]

/-- Witness for `push_head_mismatch`. -/
theorem push_head_mismatch_witness :
    push (Except.ok "c1") ⟨"msg", "wrong", none⟩
        { head := "h1",
          entries := [("a", ⟨"a", FileState.added, none, some "x", none⟩)],
          ws := [("a", "x")], baseSeg := [], confSeg := [] }
      = ({ head := "h1",
           entries := [("a", ⟨"a", FileState.added, none, some "x", none⟩)],
           ws := [("a", "x")], baseSeg := [], confSeg := [] },
         Except.error PushError.headMismatch) :=
  push_head_mismatch (Except.ok "c1") ⟨"msg", "wrong", none⟩ _ (by decide)

/-! ### Change-set lemmas -/

theorem insertChange_perm (x : Change) (l : List Change) :
    (insertChange x l).Perm (x :: l) := by
  induction l with
  | nil => rfl
  | cons y rest ih =>
    rw [insertChange]
    by_cases hle : changeLe x y = true
    · simp [hle]
    · simp only [hle, Bool.false_eq_true, not_false_eq_true, if_false]
      exact List.Perm.trans (List.Perm.cons y ih) (List.Perm.swap x y rest)

theorem sortChanges_perm (l : List Change) : (sortChanges l).Perm l := by
  induction l with
  | nil => rfl
  | cons x rest ih =>
    exact (insertChange_perm x (sortChanges rest)).trans (List.Perm.cons x ih)

theorem countP_sortChanges (f : Change → Bool) (l : List Change) :
    (sortChanges l).countP f = l.countP f :=
  (sortChanges_perm l).countP_eq f

theorem mem_sortChanges {x : Change} {l : List Change} : x ∈ sortChanges l ↔ x ∈ l :=
  (sortChanges_perm l).mem_iff

theorem changeOf_path {s : VState} {p : String} {e : IndexEntry} {ch : Change}
    (h : changeOf s p e = some ch) : ch.path = p := by
  cases hst : e.state <;> simp [changeOf, hst] at h <;> simp [← h]

/-! ### Claim theorems: listPaths, tombstones, rename -/

theorem listPaths_mem (t : VState) (q : String) :
    q ∈ listPaths t ↔ ∃ d : IndexEntry, (q, d) ∈ t.entries ∧
      (d.state = FileState.base ∨ d.state = FileState.added ∨
       d.state = FileState.modified ∨ d.state = FileState.conflict) := by
  simp only [listPaths, List.mem_filterMap]
  constructor
  · rintro ⟨⟨k, d⟩, hmem, hf⟩
    by_cases hd : d.state = FileState.deleted
    · simp [hd] at hf
    · simp [hd] at hf
      subst hf
      refine ⟨d, hmem, ?_⟩
      cases hds : d.state <;> simp_all
  · rintro ⟨d, hmem, hd⟩
    refine ⟨(q, d), hmem, ?_⟩
    have : d.state ≠ FileState.deleted := by
      rcases hd with h | h | h | h <;> simp [h]
    simp [this]

/-- C5: `listPaths` hides exactly the tombstones — a path is listed iff its
index entry is in state base/added/modified/conflict; a path tombstoned by
`deleteFile` disappears from `listPaths` while its entry stays in
`I.entries` (state `deleted`) and contributes a delete action to the change
set, until a successful push drops the entry. -/
theorem listPaths_tombstone_spec (s : VState) (p : String) (e : IndexEntry)
    (commitSha msg : String)
    (hent : lk s.entries p = some e)
    (hst : e.state = FileState.base ∨ e.state = FileState.modified ∨
           e.state = FileState.conflict)
    (hnoconf : ∀ kv ∈ s.entries, kv.2.state = FileState.conflict → kv.1 = p) :
    (∀ (t : VState) (q : String),
      q ∈ listPaths t ↔ ∃ d : IndexEntry, (q, d) ∈ t.entries ∧
        (d.state = FileState.base ∨ d.state = FileState.added ∨
         d.state = FileState.modified ∨ d.state = FileState.conflict)) ∧
    p ∉ listPaths (deleteFile p s) ∧
    lk (deleteFile p s).entries p = some ⟨p, FileState.deleted, e.baseSha, none, none⟩ ∧
    (⟨ChangeType.delete, p, none⟩ : Change) ∈ getChangeSet (deleteFile p s) ∧
    lk (push (Except.ok commitSha) ⟨msg, (deleteFile p s).head, none⟩ (deleteFile p s)).1.entries p
      = none := by
  have hdel : deleteFile p s =
      { s with entries := setKey p ⟨p, FileState.deleted, e.baseSha, none, none⟩ s.entries,
               ws := eraseKey p s.ws,
               confSeg := eraseKey p s.confSeg } := by
    rcases hst with hst | hst | hst <;> simp [deleteFile, hent, hst]
  have hlkp : lk (deleteFile p s).entries p
      = some ⟨p, FileState.deleted, e.baseSha, none, none⟩ := by
    rw [hdel]; exact lk_setKey_self p _ s.entries
  have hnotin : p ∉ listPaths (deleteFile p s) := by
    rw [listPaths_mem]
    rintro ⟨d, hmem, hd⟩
    rw [hdel] at hmem
    simp only [setKey] at hmem
    rcases List.mem_cons.mp hmem with hmem | hmem
    · have : d = ⟨p, FileState.deleted, e.baseSha, none, none⟩ := by
        simpa using congrArg Prod.snd hmem
      subst this
      rcases hd with h | h | h | h <;> simp at h
    · have := (List.mem_filter.mp hmem).2
      simp at this
  have hmemdel : (⟨ChangeType.delete, p, none⟩ : Change) ∈ getChangeSet (deleteFile p s) := by
    rw [hdel]
    apply mem_sortChanges.mpr
    apply List.mem_filterMap.mpr
    refine ⟨(p, ⟨p, FileState.deleted, e.baseSha, none, none⟩), ?_, rfl⟩
    simp [setKey]
  have hconf : ((deleteFile p s).entries.any
      (fun kv => decide (kv.2.state = FileState.conflict))) = false := by
    apply List.any_eq_false.mpr
    rintro ⟨k, d⟩ hmem
    rw [hdel] at hmem
    simp only [setKey] at hmem
    rcases List.mem_cons.mp hmem with hmem | hmem
    · have hd : d = ⟨p, FileState.deleted, e.baseSha, none, none⟩ := by
        simpa using congrArg Prod.snd hmem
      subst hd
      simp
    · have hmf := List.mem_filter.mp hmem
      have hkp : k ≠ p := by simpa using hmf.2
      have := hnoconf (k, d) hmf.1
      simp only [decide_eq_true_eq]
      intro hcd
      exact hkp (this hcd)
  have hne : (getChangeSet (deleteFile p s)).isEmpty = false := by
    cases hcs : getChangeSet (deleteFile p s) with
    | nil => rw [hcs] at hmemdel; simp at hmemdel
    | cons x rest => rfl
  have hpush : push (Except.ok commitSha) ⟨msg, (deleteFile p s).head, none⟩ (deleteFile p s)
      = (promoteAfterPush (deleteFile p s) commitSha, Except.ok ⟨false, commitSha⟩) := by
    simp [push, hconf, hne]
  refine ⟨listPaths_mem, hnotin, hlkp, hmemdel, ?_⟩
  rw [hpush]
  show lk (patchMap ((deleteFile p s).entries.map Prod.fst) _ _) p = none
  rw [lk_patchMap]
  have hpdom : p ∈ (deleteFile p s).entries.map Prod.fst := lk_some_mem_keys hlkp
  simp [hpdom, hlkp, promoteEntryAfterPush]

/-- Witness for `listPaths_tombstone_spec`. -/
theorem listPaths_tombstone_spec_witness :
    "a" ∉ listPaths (deleteFile "a"
      { head := "h1", entries := [("a", ⟨"a", FileState.base, some "v", none, none⟩)],
        ws := [], baseSeg := [("a", "v")], confSeg := [] }) ∧
    lk (deleteFile "a"
      { head := "h1", entries := [("a", ⟨"a", FileState.base, some "v", none, none⟩)],
        ws := [], baseSeg := [("a", "v")], confSeg := [] }).entries "a"
      = some ⟨"a", FileState.deleted, some "v", none, none⟩ ∧
    (⟨ChangeType.delete, "a", none⟩ : Change) ∈ getChangeSet (deleteFile "a"
      { head := "h1", entries := [("a", ⟨"a", FileState.base, some "v", none, none⟩)],
        ws := [], baseSeg := [("a", "v")], confSeg := [] }) ∧
    lk (push (Except.ok "c1") ⟨"m", (deleteFile "a"
      { head := "h1", entries := [("a", ⟨"a", FileState.base, some "v", none, none⟩)],
        ws := [], baseSeg := [("a", "v")], confSeg := [] }).head, none⟩ (deleteFile "a"
      { head := "h1", entries := [("a", ⟨"a", FileState.base, some "v", none, none⟩)],
        ws := [], baseSeg := [("a", "v")], confSeg := [] })).1.entries "a" = none := by
  have h := listPaths_tombstone_spec
    { head := "h1", entries := [("a", ⟨"a", FileState.base, some "v", none, none⟩)],
      ws := [], baseSeg := [("a", "v")], confSeg := [] }
    "a" ⟨"a", FileState.base, some "v", none, none⟩ "c1" "m"
    (by decide) (Or.inl rfl) (by decide)
  exact ⟨h.2.1, h.2.2.1, h.2.2.2.1, h.2.2.2.2⟩

theorem countP_filterMap_changeOf_zero (s : VState) (l : List (String × IndexEntry))
    (f : Change → Bool) (x : String)
    (hpath : ∀ kv ∈ l, kv.1 ≠ x)
    (hf : ∀ ch : Change, f ch = true → ch.path = x) :
    (l.filterMap (fun kv => changeOf s kv.1 kv.2)).countP f = 0 := by
  apply List.countP_eq_zero.mpr
  intro ch hch
  obtain ⟨kv, hkv, hcof⟩ := List.mem_filterMap.mp hch
  intro hfch
  exact hpath kv hkv ((changeOf_path hcof) ▸ hf ch hfch)

/-- C4 (amended): when the source path `a` has a `base` index entry (its
effective content `c` living in the base segment) and the destination `b`
has no entry, `renameWorkspace(a, b)` succeeds and the subsequent change set
contains exactly one delete action for `a` and exactly one create action for
`b` carrying `c`; and when neither workspace nor base holds content for the
source, `renameWorkspace` fails with the source-not-found error.  (The
unrestricted claim is false: a source in state `added` is dropped without a
tombstone, and a destination already holding identical base content is a
no-op write — see the counterexample.) -/
theorem renameWorkspace_spec (H : String → String) (s : VState) (a b c : String)
    (ea : IndexEntry)
    (hea : lk s.entries a = some ea) (hst : ea.state = FileState.base)
    (hwsa : lk s.ws a = none) (hbasea : lk s.baseSeg a = some c)
    (hb : lk s.entries b = none) (hab : a ≠ b) :
    renameWorkspace H a b s = Except.ok (deleteFile a (writeFile H b c s)) ∧
    (getChangeSet (deleteFile a (writeFile H b c s))).countP
        (fun ch => decide (ch = ⟨ChangeType.delete, a, none⟩)) = 1 ∧
    (getChangeSet (deleteFile a (writeFile H b c s))).countP
        (fun ch => decide (ch = ⟨ChangeType.create, b, some c⟩)) = 1 ∧
    (∀ (t : VState) (x y : String), lk t.ws x = none → lk t.baseSeg x = none →
       renameWorkspace H x y t = Except.error "source not found") := by
  have hwrite : writeFile H b c s =
      { s with ws := setKey b c s.ws,
               entries := setKey b ⟨b, FileState.added, none, some (H c), none⟩ s.entries } := by
    simp [writeFile, hb]
  have hentdel : lk (writeFile H b c s).entries a = some ea := by
    rw [hwrite]
    show lk (setKey b _ s.entries) a = some ea
    rw [lk_setKey_ne hab]
    exact hea
  have hdel : deleteFile a (writeFile H b c s) =
      { s with
        entries := setKey a ⟨a, FileState.deleted, ea.baseSha, none, none⟩
          (setKey b ⟨b, FileState.added, none, some (H c), none⟩ s.entries),
        ws := eraseKey a (setKey b c s.ws),
        confSeg := eraseKey a s.confSeg } := by
    have hlk2 : lk (setKey b ⟨b, FileState.added, none, some (H c), none⟩ s.entries) a
        = some ea := by
      rw [lk_setKey_ne hab]; exact hea
    simp [deleteFile, hwrite, hlk2, hst]
  have hwsb : lk (deleteFile a (writeFile H b c s)).ws b = some c := by
    rw [hdel]
    show lk (eraseKey a (setKey b c s.ws)) b = some c
    rw [lk_eraseKey_ne (Ne.symm hab), lk_setKey_self]
  have hentries : (deleteFile a (writeFile H b c s)).entries
      = (a, ⟨a, FileState.deleted, ea.baseSha, none, none⟩)
        :: (b, ⟨b, FileState.added, none, some (H c), none⟩)
        :: eraseKey a (eraseKey b s.entries) := by
    rw [hdel]
    show setKey a _ (setKey b _ s.entries) = _
    simp only [setKey, eraseKey, List.filter_cons]
    rw [if_pos (by simpa using Ne.symm hab)]
  have hrest : ∀ kv ∈ eraseKey a (eraseKey b s.entries), kv.1 ≠ a ∧ kv.1 ≠ b := by
    intro kv hkv
    have h1 := List.mem_filter.mp hkv
    have h2 := List.mem_filter.mp h1.1
    exact ⟨by simpa using h1.2, by simpa using h2.2⟩
  constructor
  · simp [renameWorkspace, hwsa, hbasea]
  refine ⟨?_, ?_, ?_⟩
  · rw [getChangeSet, countP_sortChanges, hentries]
    rw [List.filterMap_cons, List.filterMap_cons]
    have hc1 : changeOf (deleteFile a (writeFile H b c s)) a
        ⟨a, FileState.deleted, ea.baseSha, none, none⟩
        = some ⟨ChangeType.delete, a, none⟩ := rfl
    have hc2 : changeOf (deleteFile a (writeFile H b c s)) b
        ⟨b, FileState.added, none, some (H c), none⟩
        = some ⟨ChangeType.create, b, lk (deleteFile a (writeFile H b c s)).ws b⟩ := rfl
    rw [hc1, hc2, hwsb]
    rw [List.countP_cons, List.countP_cons]
    rw [countP_filterMap_changeOf_zero _ _ _ a (fun kv hkv => (hrest kv hkv).1)
      (by
        intro ch hch
        have : ch = ⟨ChangeType.delete, a, none⟩ := by simpa using hch
        rw [this])]
    simp [hab]
  · rw [getChangeSet, countP_sortChanges, hentries]
    rw [List.filterMap_cons, List.filterMap_cons]
    have hc1 : changeOf (deleteFile a (writeFile H b c s)) a
        ⟨a, FileState.deleted, ea.baseSha, none, none⟩
        = some ⟨ChangeType.delete, a, none⟩ := rfl
    have hc2 : changeOf (deleteFile a (writeFile H b c s)) b
        ⟨b, FileState.added, none, some (H c), none⟩
        = some ⟨ChangeType.create, b, lk (deleteFile a (writeFile H b c s)).ws b⟩ := rfl
    rw [hc1, hc2, hwsb]
    rw [List.countP_cons, List.countP_cons]
    rw [countP_filterMap_changeOf_zero _ _ _ b (fun kv hkv => (hrest kv hkv).2)
      (by
        intro ch hch
        have : ch = ⟨ChangeType.create, b, some c⟩ := by simpa using hch
        rw [this])]
    simp [Ne.symm hab]
  · intro t x y hx1 hx2
    simp [renameWorkspace, hx1, hx2]

/-- Witness for `renameWorkspace_spec`. -/
theorem renameWorkspace_spec_witness :
    renameWorkspace (fun x => x) "c.txt" "d.txt"
        { head := "h1",
          entries := [("c.txt", ⟨"c.txt", FileState.base, some "content-c", none, none⟩)],
          ws := [], baseSeg := [("c.txt", "content-c")], confSeg := [] }
      = Except.ok (deleteFile "c.txt" (writeFile (fun x => x) "d.txt" "content-c"
          { head := "h1",
            entries := [("c.txt", ⟨"c.txt", FileState.base, some "content-c", none, none⟩)],
            ws := [], baseSeg := [("c.txt", "content-c")], confSeg := [] })) ∧
    (getChangeSet (deleteFile "c.txt" (writeFile (fun x => x) "d.txt" "content-c"
        { head := "h1",
          entries := [("c.txt", ⟨"c.txt", FileState.base, some "content-c", none, none⟩)],
          ws := [], baseSeg := [("c.txt", "content-c")], confSeg := [] }))).countP
      (fun ch => decide (ch = ⟨ChangeType.delete, "c.txt", none⟩)) = 1 ∧
    (getChangeSet (deleteFile "c.txt" (writeFile (fun x => x) "d.txt" "content-c"
        { head := "h1",
          entries := [("c.txt", ⟨"c.txt", FileState.base, some "content-c", none, none⟩)],
          ws := [], baseSeg := [("c.txt", "content-c")], confSeg := [] }))).countP
      (fun ch => decide (ch = ⟨ChangeType.create, "d.txt", some "content-c"⟩)) = 1 := by
  have h := renameWorkspace_spec (fun x => x)
    { head := "h1",
      entries := [("c.txt", ⟨"c.txt", FileState.base, some "content-c", none, none⟩)],
      ws := [], baseSeg := [("c.txt", "content-c")], confSeg := [] }
    "c.txt" "d.txt" "content-c" ⟨"c.txt", FileState.base, some "content-c", none, none⟩
    (by decide) rfl (by decide) (by decide) (by decide) (by decide)
  exact ⟨h.1, h.2.1, h.2.2.1⟩

/-- Counterexample to C4 as stated.  Scenario 1: the source `a` is a freshly
added file — its effective content exists (in the workspace), the rename
succeeds, yet the change set holds no delete action for `a` (the `added`
entry is dropped, not tombstoned).  Scenario 2: the destination `b` already
holds identical base content — the write is a no-op, so the change set holds
no create action for `b`. -/
theorem renameWorkspace_claim_counterexample :
    (lk (writeFile (fun x => x) "a" "x" vfsInit).ws "a" = some "x" ∧
     Option.map
        (fun t => (getChangeSet t).countP
          (fun ch => decide (ch = ⟨ChangeType.delete, "a", none⟩)))
        (renameWorkspace (fun x => x) "a" "b" (writeFile (fun x => x) "a" "x" vfsInit)).toOption
       = some 0) ∧
    (Option.map
        (fun t => (getChangeSet t).countP
          (fun ch => decide (ch.type = ChangeType.create ∧ ch.path = "b")))
        (renameWorkspace (fun x => x) "a" "b"
          { head := "h",
            entries := [("a", ⟨"a", FileState.base, some "v", none, none⟩),
                        ("b", ⟨"b", FileState.base, some "v", none, none⟩)],
            ws := [], baseSeg := [("a", "v"), ("b", "v")], confSeg := [] }).toOption
       = some 0) := by decide

/-! ### GitLab adapter: retry loop and commit-response handling

Modelled from the spec: `src/git/gitlabAdapter.ts` (the adapter exported by
`src/index.ts`, with `fetchWithRetry`, `maxRetries` and the commit-response
checks) is absent from the source tree — only its tests and the reduced
variant `gitlabAdapter.clean.ts` are present.  The model follows §4.3, §4.5
and the §6 wire contract: HTTP ≥ 500, 408, 429 and transport-layer errors
are retryable; the retry budget is 5 attempts; a retryable failure on the
last attempt is returned to the caller as the response; the commit response
must parse as JSON (else `invalid JSON response`) and contain `id` (else
`unexpected response`). -/

/-- An HTTP response as the adapter sees it: status plus raw body text. -/
structure HttpResponse where
  status : Nat
  body : String
deriving DecidableEq, Repr

/-- What one `fetch` attempt does: throw a transport-layer error, or return
a response. -/
inductive FetchOutcome
  | threw (msg : String)
  | resp (r : HttpResponse)
deriving DecidableEq, Repr

/-- Modelled from the spec: retryable HTTP statuses — `≥ 500`, `408`,
`429` (§4.3). -/
def retryableStatus (status : Nat) : Bool :=
  decide (500 ≤ status) || status == 408 || status == 429

/-- A 2xx success status. -/
def okStatus (status : Nat) : Bool :=
  decide (200 ≤ status) && decide (status < 300)

/-- Modelled from the spec: failure classification of one attempt —
transport-layer errors and retryable statuses retry, everything else is
handed to the caller (§4.3, §4.5). -/
def retryableOutcome : FetchOutcome → Bool
  | FetchOutcome.threw _ => true
  | FetchOutcome.resp r => retryableStatus r.status

/-- Modelled from the spec: the retry budget — max 5 attempts (§4.3). -/
def maxAttempts : Nat := 5

/-- Modelled from the spec: `fetchWithRetry` (§4.5) over a sequence of
attempt outcomes — loops while an attempt is retryable and budget remains;
a retryable response on the last attempt is returned to the caller as the
response (so the caller may decide); a transport error on the last attempt
propagates. -/
def fetchWithRetry (budget : Nat) (outcomes : Nat → FetchOutcome) (attempt : Nat) :
    Except String HttpResponse :=
  match budget with
  | 0 => Except.error "retry budget exhausted"
  | Nat.succ b =>
    match outcomes attempt with
    | FetchOutcome.threw m =>
      if b = 0 then Except.error ("fetch failed: " ++ m)
      else fetchWithRetry b outcomes (attempt + 1)
    | FetchOutcome.resp r =>
      if retryableStatus r.status then
        if b = 0 then Except.ok r
        else fetchWithRetry b outcomes (attempt + 1)
      else Except.ok r

/-- Modelled from the spec: `createCommitWithActions` response handling
(§6 wire contract).  `parseId` models `JSON.parse` followed by reading the
`id` field: `none` = body is not valid JSON, `some none` = JSON without
`id`, `some (some v)` = JSON whose `id` is `v`.  A 2xx (or final retryable)
response is parsed; a terminal non-2xx response propagates the body text. -/
def createCommitWithActions (budget : Nat) (outcomes : Nat → FetchOutcome)
    (parseId : String → Option (Option String)) : Except String String :=
  match fetchWithRetry budget outcomes 0 with
  | Except.error m => Except.error m
  | Except.ok r =>
    if okStatus r.status || retryableStatus r.status then
      match parseId r.body with
      | none => Except.error ("GitLab commit invalid JSON response: " ++ r.body)
      | some none => Except.error ("GitLab commit unexpected response: " ++ r.body)
      | some (some commitId) => Except.ok commitId
    else Except.error ("GitLab commit failed: " ++ r.body)

/-- C7: for a commit request whose fetch yields a 2xx response, a body that
is not valid JSON is a terminal error whose message contains
`invalid JSON response`, a JSON body lacking the `id` field is a terminal
error whose message contains `unexpected response`, and on success the
returned commit sha is the response's `id`. -/
theorem createCommitWithActions_response (budget : Nat) (outcomes : Nat → FetchOutcome)
    (parseId : String → Option (Option String)) (r : HttpResponse)
    (hfetch : fetchWithRetry budget outcomes 0 = Except.ok r)
    (hok : okStatus r.status = true) :
    (parseId r.body = none →
      createCommitWithActions budget outcomes parseId
        = Except.error ("GitLab commit " ++ "invalid JSON response" ++ ": " ++ r.body)) ∧
    (parseId r.body = some none →
      createCommitWithActions budget outcomes parseId
        = Except.error ("GitLab commit " ++ "unexpected response" ++ ": " ++ r.body)) ∧
    (∀ commitId, parseId r.body = some (some commitId) →
      createCommitWithActions budget outcomes parseId = Except.ok commitId) := by
  have hpre1 : ("GitLab commit " ++ "invalid JSON response" ++ ": " : String)
      = "GitLab commit invalid JSON response: " := by decide
  have hpre2 : ("GitLab commit " ++ "unexpected response" ++ ": " : String)
      = "GitLab commit unexpected response: " := by decide
  refine ⟨?_, ?_, ?_⟩
  · intro hp
    rw [createCommitWithActions, hfetch]
    simp [hok, hp, String.append_assoc, ← hpre1]
  · intro hp
    rw [createCommitWithActions, hfetch]
    simp [hok, hp, String.append_assoc, ← hpre2]
  · intro commitId hp
    rw [createCommitWithActions, hfetch]
    simp [hok, hp]

/-- Witness for `createCommitWithActions_response`. -/
theorem createCommitWithActions_response_witness :
    createCommitWithActions 5 (fun _ => FetchOutcome.resp ⟨201, "nojson"⟩) (fun _ => none)
      = Except.error ("GitLab commit " ++ "invalid JSON response" ++ ": " ++ "nojson") ∧
    createCommitWithActions 5 (fun _ => FetchOutcome.resp ⟨201, "noid"⟩) (fun _ => some none)
      = Except.error ("GitLab commit " ++ "unexpected response" ++ ": " ++ "noid") ∧
    createCommitWithActions 5 (fun _ => FetchOutcome.resp ⟨201, "good"⟩)
        (fun _ => some (some "cafe01"))
      = Except.ok "cafe01" :=
  ⟨(createCommitWithActions_response 5 (fun _ => FetchOutcome.resp ⟨201, "nojson"⟩)
      (fun _ => none) ⟨201, "nojson"⟩ rfl rfl).1 rfl,
   (createCommitWithActions_response 5 (fun _ => FetchOutcome.resp ⟨201, "noid"⟩)
      (fun _ => some none) ⟨201, "noid"⟩ rfl rfl).2.1 rfl,
   (createCommitWithActions_response 5 (fun _ => FetchOutcome.resp ⟨201, "good"⟩)
      (fun _ => some (some "cafe01")) ⟨201, "good"⟩ rfl rfl).2.2 "cafe01" rfl⟩

theorem fetchWithRetry_succeeds_after_retryable (outcomes : Nat → FetchOutcome)
    (r : HttpResponse) :
    ∀ (k budget attempt : Nat), k < budget →
      (∀ j, j < k → retryableOutcome (outcomes (attempt + j)) = true) →
      outcomes (attempt + k) = FetchOutcome.resp r → okStatus r.status = true →
      fetchWithRetry budget outcomes attempt = Except.ok r := by
  intro k
  induction k with
  | zero =>
    intro budget attempt hk hretry hout hok
    obtain ⟨b, rfl⟩ : ∃ b, budget = b + 1 := ⟨budget - 1, by omega⟩
    rw [fetchWithRetry]
    simp only [Nat.add_zero] at hout
    rw [hout]
    have : retryableStatus r.status = false := by
      simp only [okStatus, Bool.and_eq_true, decide_eq_true_eq] at hok
      simp [retryableStatus]
      omega
    simp [this]
  | succ k ih =>
    intro budget attempt hk hretry hout hok
    obtain ⟨b, rfl⟩ : ∃ b, budget = b + 1 := ⟨budget - 1, by omega⟩
    have hb : 0 < b := by omega
    have h0 := hretry 0 (Nat.succ_pos k)
    simp only [Nat.add_zero] at h0
    rw [fetchWithRetry]
    have hrec : fetchWithRetry b outcomes (attempt + 1) = Except.ok r := by
      apply ih b (attempt + 1) (by omega)
      · intro j hj
        have := hretry (j + 1) (by omega)
        simpa [Nat.add_assoc, Nat.add_comm 1 j] using this
      · have : attempt + 1 + k = attempt + (k + 1) := by omega
        rw [this]
        exact hout
      · exact hok
    cases ho : outcomes attempt with
    | threw m =>
      simp [if_neg (by omega : ¬ b = 0), hrec]
    | resp r0 =>
      rw [ho] at h0
      simp only [retryableOutcome] at h0
      simp [h0, if_neg (by omega : ¬ b = 0), hrec]

/-- C8: HTTP status ≥ 500, statuses 408 and 429, and transport-layer errors
are all classified retryable, and with the budget of `maxAttempts = 5`
attempts, a request whose first `k < 5` attempts fail retryably and whose
`(k+1)`-st attempt returns a 2xx response is retried until that attempt and
returns the successful response. -/
theorem retry_classification_and_recovery :
    (∀ st, 500 ≤ st → retryableStatus st = true) ∧
    retryableStatus 408 = true ∧
    retryableStatus 429 = true ∧
    (∀ m, retryableOutcome (FetchOutcome.threw m) = true) ∧
    maxAttempts = 5 ∧
    (∀ (outcomes : Nat → FetchOutcome) (r : HttpResponse) (k : Nat), k < maxAttempts →
      (∀ j, j < k → retryableOutcome (outcomes j) = true) →
      outcomes k = FetchOutcome.resp r → okStatus r.status = true →
      fetchWithRetry maxAttempts outcomes 0 = Except.ok r) := by
  refine ⟨?_, rfl, rfl, fun m => rfl, rfl, ?_⟩
  · intro st hst
    simp [retryableStatus]
    omega
  · intro outcomes r k hk hretry hout hok
    apply fetchWithRetry_succeeds_after_retryable outcomes r k maxAttempts 0 hk
    · simpa using hretry
    · simpa using hout
    · exact hok

/-- Witness for `retry_classification_and_recovery`: a transport error, then
a 500, then a success on the third attempt. -/
theorem retry_classification_and_recovery_witness :
    retryableStatus 503 = true ∧
    fetchWithRetry maxAttempts
        (fun n => if n = 0 then FetchOutcome.threw "network"
          else if n = 1 then FetchOutcome.resp ⟨500, "err"⟩
          else FetchOutcome.resp ⟨200, "ok"⟩) 0
      = Except.ok ⟨200, "ok"⟩ :=
  ⟨retry_classification_and_recovery.1 503 (by omega),
   retry_classification_and_recovery.2.2.2.2.2
     (fun n => if n = 0 then FetchOutcome.threw "network"
        else if n = 1 then FetchOutcome.resp ⟨500, "err"⟩
        else FetchOutcome.resp ⟨200, "ok"⟩)
     ⟨200, "ok"⟩ 2 (by decide)
     (by
       intro j hj
       interval_cases j <;> rfl)
     rfl rfl⟩

/-! ### NodeFsStorage, embedded from `src/virtualfs/persistence.ts`

The filesystem is a finite map from absolute paths to file contents.  The
`fs/promises` primitives fail (reject) on a missing file; each
`NodeFsStorage` method wraps them in try/catch exactly as the source does,
so the methods themselves are total at the interface: a resolved promise is
`Except.ok`. -/

/-- `path.join(dir, p)` for the path shapes the storage uses. -/
def pathJoin (dir p : String) : String := dir ++ "/" ++ p

/-- `fs.readFile`: resolves with the content, rejects (`ENOENT`) when the
file does not exist. -/
def fsReadFile (fs : List (String × String)) (p : String) : Except String String :=
  match lk fs p with
  | some c => Except.ok c
  | none => Except.error "ENOENT"

/-- `fs.unlink`: removes the file, rejects (`ENOENT`) when it does not
exist. -/
def fsUnlink (fs : List (String × String)) (p : String) :
    Except String (List (String × String)) :=
  match lk fs p with
  | some _ => Except.ok (eraseKey p fs)
  | none => Except.error "ENOENT"

namespace NodeFsStorage

/-- `NodeFsStorage.readBlob`: reads `dir/filepath`, returning `null` instead
of throwing when the read fails (the try/catch of the source). -/
def readBlob (dir : String) (fs : List (String × String)) (filepath : String) :
    Except String (Option String) :=
  match fsReadFile fs (pathJoin dir filepath) with
  | Except.ok c => Except.ok (some c)
  | Except.error _ => Except.ok none

/-- `NodeFsStorage.writeBlob`: writes `dir/filepath` (directories are created
as needed, which the map model renders implicit). -/
def writeBlob (dir : String) (fs : List (String × String)) (filepath content : String) :
    Except String (List (String × String)) :=
  Except.ok (setKey (pathJoin dir filepath) content fs)

/-- `NodeFsStorage.deleteBlob`: unlinks `dir/filepath`, ignoring a failure
(the try/catch of the source), so a missing target resolves with the
filesystem unchanged. -/
def deleteBlob (dir : String) (fs : List (String × String)) (filepath : String) :
    Except String (List (String × String)) :=
  match fsUnlink fs (pathJoin dir filepath) with
  | Except.ok fs2 => Except.ok fs2
  | Except.error _ => Except.ok fs

/-- `NodeFsStorage.readIndex`: reads `dir/index.json` and parses it,
returning `null` when the read or the parse fails (the try/catch of the
source).  `parse` models `JSON.parse` into an `IndexFile`. -/
def readIndex (dir : String) (parse : String → Except String IndexFile)
    (fs : List (String × String)) : Except String (Option IndexFile) :=
  match fsReadFile fs (pathJoin dir "index.json") with
  | Except.ok raw =>
    match parse raw with
    | Except.ok idx => Except.ok (some idx)
    | Except.error _ => Except.ok none
  | Except.error _ => Except.ok none

end NodeFsStorage

/-- C10: `NodeFsStorage` is total at its public interface — `readBlob`
resolves to `null` (never rejects) when no file exists at the path,
`deleteBlob` resolves with the filesystem unchanged when the target does not
exist, and `readIndex` resolves to `null` when `index.json` is missing or
its content does not parse as JSON. -/
theorem nodeFsStorage_total (dir filepath : String) (fs : List (String × String))
    (parse : String → Except String IndexFile) :
    (lk fs (pathJoin dir filepath) = none →
      NodeFsStorage.readBlob dir fs filepath = Except.ok none) ∧
    (lk fs (pathJoin dir filepath) = none →
      NodeFsStorage.deleteBlob dir fs filepath = Except.ok fs) ∧
    (lk fs (pathJoin dir "index.json") = none →
      NodeFsStorage.readIndex dir parse fs = Except.ok none) ∧
    (∀ raw m, lk fs (pathJoin dir "index.json") = some raw → parse raw = Except.error m →
      NodeFsStorage.readIndex dir parse fs = Except.ok none) := by
  refine ⟨?_, ?_, ?_, ?_⟩
  · intro h
    rw [NodeFsStorage.readBlob, fsReadFile, h]
  · intro h
    rw [NodeFsStorage.deleteBlob, fsUnlink, h]
  · intro h
    rw [NodeFsStorage.readIndex, fsReadFile, h]
  · intro raw m hraw hparse
    rw [NodeFsStorage.readIndex, fsReadFile, hraw]
    simp [hparse]

/-- Witness for `nodeFsStorage_total`. -/
theorem nodeFsStorage_total_witness :
    NodeFsStorage.readBlob "root" [] "missing.txt" = Except.ok none ∧
    NodeFsStorage.deleteBlob "root" [] "missing.txt" = Except.ok [] ∧
    NodeFsStorage.readIndex "root" (fun _ => Except.error "bad json") [] = Except.ok none ∧
    NodeFsStorage.readIndex "root" (fun _ => Except.error "bad json")
        [("root/index.json", "not-json")]
      = Except.ok none := by
  have h1 := nodeFsStorage_total "root" "missing.txt" [] (fun _ => Except.error "bad json")
  have h2 := nodeFsStorage_total "root" "missing.txt" [("root/index.json", "not-json")]
    (fun _ => Except.error "bad json")
  exact ⟨h1.1 rfl, h1.2.1 rfl, h1.2.2.1 rfl,
    h2.2.2.2 "not-json" "bad json" (by decide) rfl⟩

end AGW
